import Mathlib

/-! Shallow embedding of the `go-ObuJIS2004` command-line search utility
(`src/main.go`).  Strings are modelled as Lean `String`s; Go's `[]rune`
conversion corresponds to `String.data : List Char` (Unicode code points).
`strings.Contains` (a byte-level substring test) coincides with rune-level
infix containment on valid UTF-8 input, which is the invariant of both Go
`string` and Lean `String`, so it is modelled as `List.IsInfix` on the
character lists.  Go `int` values that can be negative (the context size)
are modelled as `Int`; counts and lengths are `Nat`.
-/

/-- Constant `MaxSnippets` from main.go. -/
def MaxSnippets : Nat := 10

/-- Constant `DefaultContextSize` from main.go. -/
def DefaultContextSize : Int := 20

/-- Struct `SearchResult`: result for one query. -/
structure SearchResult where
  Query : String
  Count : Nat
  Snippets : List String
deriving DecidableEq

/-- Struct `Config`: runtime configuration. -/
structure Config where
  InputFilePath : String
  Queries : List String
  ContextSize : Int
deriving DecidableEq

/-- Model of `strings.Split(s, sep)` for a one-character separator, on character
lists: the list of (possibly empty) segments between separators.
`splitOnChar c [] = [[]]`, matching Go's `Split("", sep) = [""]`. -/
def splitOnChar (sep : Char) : List Char → List (List Char)
  | [] => [[]]
  | c :: rest =>
    if c = sep then [] :: splitOnChar sep rest
    else
      match splitOnChar sep rest with
      | [] => [[c]]
      | t :: ts => (c :: t) :: ts

/-- Helper `dropCR` from `bufio.ScanLines`: remove one trailing carriage return. -/
def dropCR (l : List Char) : List Char :=
  if l.getLast? = some '\r' then l.dropLast else l

/-- The sequence of lines produced by `bufio.Scanner` with the default
`ScanLines` split function: tokens between newlines, each stripped of one
trailing `'\r'`; a final empty token after a trailing newline (or for empty
input) is not emitted, while a trailing partial line without a newline is. -/
def splitLines (input : String) : List String :=
  let parts := splitOnChar '\n' input.data
  let parts := if parts.getLast? = some [] then parts.dropLast else parts
  parts.map (fun l => String.mk (dropCR l))

/-- Model of `strings.Contains(s, sub)`: byte-level substring containment, which on
valid UTF-8 equals infix containment of the character sequences. -/
def containsStr (s sub : String) : Bool :=
  decide (sub.data <:+: s.data)

/-- The inner comparison loop of `extractSnippet`: starting at position `i`
of `l`, compare the query characters one by one. -/
def matchFrom (l : List Char) (i : Nat) : List Char → Bool
  | [] => true
  | c :: q =>
    match l[i]? with
    | some a => a == c && matchFrom l (i + 1) q
    | none => false

/-- Predicate `matchAt l q i`: the query `q` matches `l` character-by-character at
position `i` (the body of the outer loop of `extractSnippet`). -/
def matchAt (l q : List Char) (i : Nat) : Bool :=
  matchFrom l i q

/-- The outer scanning loop of `extractSnippet`: try positions
`s, s+1, ...` (at most `n` of them) and return the first match. -/
def findIdxFrom (p : Nat → Bool) : Nat → Nat → Option Nat
  | _, 0 => none
  | s, n + 1 => if p s then some s else findIdxFrom p (s + 1) n

/-- Position of the first (leftmost) occurrence of `q` in `l`, as located
by `extractSnippet`'s loop `for i := 0; i <= lineLen-qLen; i++`.  The
iteration count `l.length + 1 - q.length` is `0` when the query is longer
than the line, matching the loop not running at all in that case. -/
def findFirst (l q : List Char) : Option Nat :=
  findIdxFrom (fun i => matchAt l q i) 0 (l.length + 1 - q.length)

/-- Function `extractSnippet` from main.go: locate the first occurrence of the query
in the rune sequence and cut out `contextSize` characters of context on
each side, clamped to the line boundaries. -/
def extractSnippet (lineRunes : List Char) (query : String) (contextSize : Int) : String :=
  let queryRunes := query.data
  let qLen := queryRunes.length
  let lineLen := lineRunes.length
  match findFirst lineRunes queryRunes with
  | none => ""
  | some idx =>
    let start : Int := max 0 ((idx : Int) - contextSize)
    let stop : Int := min (lineLen : Int) ((idx : Int) + qLen + contextSize)
    String.mk ((lineRunes.take stop.toNat).drop start.toNat)

/-- The `map[string]*SearchResult` of main.go, modelled as a function from
keys to optional values (exactly the observable behaviour of a Go map
under lookup and assignment). -/
abbrev ResultSet := String → Option SearchResult

/-- Model of the Go map assignment `m[k] = v`. -/
def mapSet (m : ResultSet) (k : String) (v : SearchResult) : ResultSet :=
  fun k' => if k' = k then some v else m k'

/-- The initialisation loop of `SearchStream`:
`for _, q := range queries { results[q] = &SearchResult{Query: q} }`. -/
def initResults (queries : List String) : ResultSet :=
  queries.foldl (fun m q => mapSet m q { Query := q, Count := 0, Snippets := [] })
    (fun _ => none)

/-- The body of `SearchStream`'s inner query loop for one query `q` on one
line: skip if the line does not contain `q`; otherwise increment the count
and, when fewer than `MaxSnippets` snippets are stored, append the
extracted snippet. -/
def applyQuery (cs : Int) (lineText : String) (m : ResultSet) (q : String) : ResultSet :=
  if containsStr lineText q then
    match m q with
    | some res =>
      let res1 : SearchResult := { res with Count := res.Count + 1 }
      let res2 : SearchResult :=
        if res1.Snippets.length < MaxSnippets then
          { res1 with Snippets := res1.Snippets ++ [extractSnippet lineText.data q cs] }
        else res1
      mapSet m q res2
    | none => m
  else m

/-- Processing of a single scanned line of `SearchStream`: fold the query
loop over the query list. -/
def processLine (cs : Int) (queries : List String) (m : ResultSet) (lineText : String) :
    ResultSet :=
  queries.foldl (applyQuery cs lineText) m

/-- Function `SearchStream` from main.go on a fully available input (an in-memory
reader never produces a scanner error, so the error return is absent
here; `Run` models the failing-reader case separately). -/
def SearchStream (input : String) (queries : List String) (cs : Int) : ResultSet :=
  (splitLines input).foldl (fun m line => processLine cs queries m line) (initResults queries)

/-- The output block `WriteResults` prints for a single result: header,
count line, numbered snippets, separator. -/
def formatBlock (res : SearchResult) : String :=
  "[" ++ res.Query ++ "]\n" ++ "該当数: " ++ toString res.Count ++ "\n" ++
    String.join (res.Snippets.enum.map (fun p => toString (p.1 + 1) ++ ":" ++ p.2 ++ "\n")) ++
    "-----------------------\n"

/-- Function `WriteResults` from main.go: one block per entry of `queryOrder`, in
order, skipping queries absent from the map. -/
def WriteResults (m : ResultSet) (queryOrder : List String) : String :=
  String.join (queryOrder.map (fun q =>
    match m q with
    | none => ""
    | some res => formatBlock res))

/-- Model of `filepath.Base` (Unix semantics): last element of the path, with
trailing slashes removed; `"."` for the empty path, `"/"` if the path is
all slashes. -/
def filepathBase (path : String) : String :=
  if path.data = [] then "."
  else
    let stripped := (path.data.reverse.dropWhile (fun c => c == '/')).reverse
    if stripped = [] then "/"
    else String.mk ((stripped.reverse.takeWhile (fun c => !(c == '/'))).reverse)

/-- Model of `filepath.Ext`: the suffix beginning at the final dot of the final
path element, or the empty string when there is no dot. -/
def filepathExt (path : String) : String :=
  let rev := path.data.reverse
  let seg := rev.takeWhile (fun c => !(c == '/'))
  if seg.any (fun c => c == '.') then
    String.mk ((seg.takeWhile (fun c => !(c == '.')) ++ ['.']).reverse)
  else ""

/-- The executable-name analysis of `ParseArgs`: base name of the path,
extension stripped (a byte-suffix removal, which on the character model is
removal of the extension's characters), split on underscores. -/
def parseNameParts (execPath : String) : List String :=
  let baseName := filepathBase execPath
  let ext := filepathExt baseName
  let nameWithoutExt := String.mk (baseName.data.take (baseName.data.length - ext.data.length))
  (splitOnChar '_' nameWithoutExt.data).map String.mk

/-- The three error returns of `ParseArgs`. -/
inductive ParseError
  | missingInput
  | invalidNameFormat
  | noQueries
deriving DecidableEq

/-- Function `ParseArgs` from main.go. -/
def ParseArgs (args : List String) (execPath : String) : Except ParseError Config :=
  match args with
  | [] => Except.error ParseError.missingInput
  | inputFile :: _ =>
    let parts := parseNameParts execPath
    if parts.length < 2 then Except.error ParseError.invalidNameFormat
    else
      let queries := parts.tail
      let validQueries := queries.filter (fun q => !(q == ""))
      if validQueries.length = 0 then Except.error ParseError.noQueries
      else Except.ok { InputFilePath := inputFile, Queries := validQueries,
                       ContextSize := DefaultContextSize }

/-- The two registered flags of `Run`'s flag set: `-o` (string, default
`""`) and `-n` (int, default `DefaultContextSize`). -/
structure FlagValues where
  outputFile : String
  contextSize : Int
deriving DecidableEq

/-- Flag values before parsing. -/
def defaultFlagValues : FlagValues :=
  { outputFile := "", contextSize := DefaultContextSize }

/-- Modelled from Go's standard library: a nonempty all-digit decimal
numeral (the integer syntax exercised by this program's `-n` flag;
`strconv.ParseInt`'s base-prefixed forms are out of scope). -/
def decDigits (ds : List Char) : Option Nat :=
  if ds = [] then none
  else ds.foldl (fun acc c =>
    acc.bind (fun n => if c.isDigit then some (n * 10 + (c.toNat - 48)) else none))
    (some 0)

/-- Modelled from Go's standard library: signed decimal integer parsing
as used by the `flag` package's int values. -/
def parseDecInt : List Char → Option Int
  | '-' :: ds => (decDigits ds).map (fun n => -(n : Int))
  | '+' :: ds => (decDigits ds).map (fun n => (n : Int))
  | ds => (decDigits ds).map (fun n => (n : Int))

/-- Modelled from Go's standard `flag` package (`FlagSet.Parse` with
`ContinueOnError`) for a set with exactly the string flag `o` and the int
flag `n`: consume leading `-flag`/`--flag` arguments (with `=value` or a
following value argument), stop at the first non-flag argument or after a
lone `--`, and fail on bad syntax, unknown flags (including `-h`/`-help`),
missing values, or unparsable int values.  Returns the final flag values
and the remaining positional arguments. -/
def parseFlags (fv : FlagValues) : List String → Except Unit (FlagValues × List String)
  | [] => Except.ok (fv, [])
  | s :: rest =>
    match s.data with
    | [] => Except.ok (fv, s :: rest)
    | [c] => Except.ok (fv, String.mk [c] :: rest)
    | c1 :: c2 :: cs =>
      if c1 = '-' then
        if c2 = '-' ∧ cs = [] then Except.ok (fv, rest)
        else
          let name := if c2 = '-' then cs else c2 :: cs
          match name with
          | [] => Except.error ()
          | n1 :: ntail =>
            if n1 = '-' ∨ n1 = '=' then Except.error ()
            else
              let nameOnly := n1 :: ntail.takeWhile (fun c => !(c == '='))
              let hasEq := ntail.any (fun c => c == '=')
              let eqVal := (ntail.dropWhile (fun c => !(c == '='))).drop 1
              if nameOnly = ['o'] then
                if hasEq then parseFlags { fv with outputFile := String.mk eqVal } rest
                else
                  match rest with
                  | v :: rest2 => parseFlags { fv with outputFile := v } rest2
                  | [] => Except.error ()
              else if nameOnly = ['n'] then
                if hasEq then
                  match parseDecInt eqVal with
                  | some v => parseFlags { fv with contextSize := v } rest
                  | none => Except.error ()
                else
                  match rest with
                  | v :: rest2 =>
                    match parseDecInt v.data with
                    | some w => parseFlags { fv with contextSize := w } rest2
                    | none => Except.error ()
                  | [] => Except.error ()
              else Except.error ()
      else Except.ok (fv, s :: rest)

/-- Outcome of the injected `FileReader` capability together with the
subsequent scan: the open may fail, the stream may fail while being read
(in which case `SearchStream` discards its partial results and returns the
wrapped read error), or the whole content is delivered. -/
inductive ReadOutcome
  | openError
  | readError
  | ok (content : String)

/-- Struct `AppContext` from main.go, with the injected capabilities replaced by
their outcomes: `createOk` is whether `FileCreator` succeeds (relevant only
when `-o` is given) and `reader` is the `FileReader`/scan outcome. -/
structure AppContext where
  Args : List String
  ExecPath : String
  createOk : Bool
  reader : ReadOutcome

/-- Observable outcome of `Run`: the exit code, everything written to the
primary output sink, and the messages logged to the error sink. -/
structure RunResult where
  exitCode : Nat
  stdoutData : String
  errLog : List String
deriving DecidableEq

/-- Function `Run` from main.go: strip the program-name argument, parse flags,
reject a negative context size, build the configuration, open the optional
output file and the input file, search, and write the results.  Every
error path returns exit code 1 with one logged message and no output. -/
def Run (ctx : AppContext) : RunResult :=
  let args := ctx.Args.drop 1
  match parseFlags defaultFlagValues args with
  | Except.error _ => { exitCode := 1, stdoutData := "", errLog := ["Flag parse error"] }
  | Except.ok (fv, remaining) =>
    if fv.contextSize < 0 then
      { exitCode := 1, stdoutData := "", errLog := ["Context size cannot be negative"] }
    else
      match ParseArgs remaining ctx.ExecPath with
      | Except.error _ =>
        { exitCode := 1, stdoutData := "", errLog := ["Configuration error"] }
      | Except.ok config0 =>
        let config : Config := { config0 with ContextSize := fv.contextSize }
        if fv.outputFile ≠ "" ∧ ctx.createOk = false then
          { exitCode := 1, stdoutData := "", errLog := ["Failed to create output file"] }
        else
          match ctx.reader with
          | ReadOutcome.openError =>
            { exitCode := 1, stdoutData := "", errLog := ["Failed to open input file"] }
          | ReadOutcome.readError =>
            { exitCode := 1, stdoutData := "", errLog := ["Search failed"] }
          | ReadOutcome.ok content =>
            { exitCode := 0,
              stdoutData :=
                WriteResults (SearchStream content config.Queries config.ContextSize)
                  config.Queries,
              errLog := [] }

/-- The effect of one scanned line on the `SearchResult` of one query
(the single-query restriction of `applyQuery`). -/
def stepLine (cs : Int) (q : String) (res : SearchResult) (lineText : String) : SearchResult :=
  if containsStr lineText q then
    let res1 : SearchResult := { res with Count := res.Count + 1 }
    if res1.Snippets.length < MaxSnippets then
      { res1 with Snippets := res1.Snippets ++ [extractSnippet lineText.data q cs] }
    else res1
  else res

/-- The scanned lines of the input that contain the query, in stream
order. -/
def matchingLines (input : String) (q : String) : List String :=
  (splitLines input).filter (fun l => containsStr l q)

/-- Lemma: `matchFrom l i q` succeeds exactly when `q` is a prefix of `l` dropped
at `i`. -/
theorem matchFrom_iff (l : List Char) (q : List Char) :
    ∀ i, matchFrom l i q = true ↔ q <+: l.drop i := by
  induction q with
  | nil => intro i; simp [matchFrom]
  | cons c q ih =>
    intro i
    simp only [matchFrom]
    cases hl : l[i]? with
    | none =>
      have hlen : l.length ≤ i := by
        by_contra hcon
        push_neg at hcon
        rw [List.getElem?_eq_getElem hcon] at hl
        cases hl
      rw [List.drop_eq_nil_of_le hlen]
      simp
    | some a =>
      obtain ⟨hi, ha⟩ := List.getElem?_eq_some.mp hl
      have hdrop : l.drop i = a :: l.drop (i + 1) := by
        rw [List.drop_eq_getElem_cons hi, ha]
      rw [hdrop]
      simp only [Bool.and_eq_true, beq_iff_eq, ih (i + 1), List.cons_prefix_cons]
      constructor
      · rintro ⟨h1, h2⟩; exact ⟨h1.symm, h2⟩
      · rintro ⟨h1, h2⟩; exact ⟨h1.symm, h2⟩

/-- Lemma: `matchAt` in terms of the character segment of the line. -/
theorem matchAt_iff (l q : List Char) (i : Nat) :
    matchAt l q i = true ↔ (l.drop i).take q.length = q := by
  rw [matchAt, matchFrom_iff, List.prefix_iff_eq_take]
  exact ⟨fun h => h.symm, fun h => h.symm⟩

/-- Soundness of the scanning loop: a returned index is in range, matches,
and no earlier scanned index matches. -/
theorem findIdxFrom_some (p : Nat → Bool) :
    ∀ n s idx, findIdxFrom p s n = some idx →
      s ≤ idx ∧ idx < s + n ∧ p idx = true ∧ ∀ j, s ≤ j → j < idx → p j = false := by
  intro n
  induction n with
  | zero => intro s idx h; simp [findIdxFrom] at h
  | succ n ih =>
    intro s idx h
    simp only [findIdxFrom] at h
    by_cases hp : p s
    · rw [if_pos hp] at h
      cases h
      exact ⟨Nat.le_refl _, by omega, hp, fun j hj1 hj2 => absurd hj2 (by omega)⟩
    · rw [if_neg hp] at h
      obtain ⟨h1, h2, h3, h4⟩ := ih (s + 1) idx h
      refine ⟨by omega, by omega, h3, ?_⟩
      intro j hj1 hj2
      rcases Nat.eq_or_lt_of_le hj1 with heq | hlt
      · rw [← heq]; exact Bool.eq_false_iff.mpr hp
      · exact h4 j hlt hj2

/-- Completeness of the scanning loop: if some scanned index satisfies the
predicate, the loop returns an index. -/
theorem findIdxFrom_isSome (p : Nat → Bool) :
    ∀ n s j, s ≤ j → j < s + n → p j = true → (findIdxFrom p s n).isSome = true := by
  intro n
  induction n with
  | zero => intro s j h1 h2 _; omega
  | succ n ih =>
    intro s j h1 h2 h3
    simp only [findIdxFrom]
    by_cases hp : p s
    · rw [if_pos hp]; rfl
    · rw [if_neg hp]
      rcases Nat.eq_or_lt_of_le h1 with heq | hlt
      · rw [← heq] at h3; exact absurd h3 (by simpa using hp)
      · exact ih (s + 1) j hlt (by omega) h3

/-- Soundness of `findFirst`: the returned index is the leftmost matching
position and the occurrence lies inside the line. -/
theorem findFirst_some (l q : List Char) (idx : Nat) (h : findFirst l q = some idx) :
    idx + q.length ≤ l.length ∧ (l.drop idx).take q.length = q ∧
      ∀ j, j < idx → ¬(l.drop j).take q.length = q := by
  obtain ⟨h1, h2, h3, h4⟩ := findIdxFrom_some _ _ _ _ h
  refine ⟨by omega, (matchAt_iff l q idx).mp h3, ?_⟩
  intro j hj hseg
  have := h4 j (Nat.zero_le j) hj
  rw [(matchAt_iff l q j).mpr hseg] at this
  cases this

/-- Completeness of `findFirst`: any infix occurrence makes the scan
succeed. -/
theorem findFirst_isSome_of_infix (l q : List Char) (h : q <:+: l) :
    (findFirst l q).isSome = true := by
  obtain ⟨s, t, rfl⟩ := h
  apply findIdxFrom_isSome _ _ 0 s.length (Nat.zero_le _)
  · simp [List.length_append]; omega
  · rw [matchAt_iff]
    rw [List.append_assoc, List.drop_left]
    rw [List.take_append_eq_append_take]
    simp

/-- Lookup after a map assignment at the same key. -/
theorem mapSet_self (m : ResultSet) (k : String) (v : SearchResult) :
    mapSet m k v k = some v := by
  simp [mapSet]

/-- Lookup after a map assignment at a different key. -/
theorem mapSet_ne (m : ResultSet) (k : String) (v : SearchResult) (k' : String)
    (h : k' ≠ k) : mapSet m k v k' = m k' := by
  simp [mapSet, h]

/-- Processing a query updates that query's own entry by `stepLine`. -/
theorem applyQuery_self (cs : Int) (line : String) (m : ResultSet) (q : String)
    (res : SearchResult) (h : m q = some res) :
    applyQuery cs line m q q = some (stepLine cs q res line) := by
  unfold applyQuery stepLine
  by_cases hc : containsStr line q
  · rw [if_pos hc, if_pos hc, h]
    simp only [mapSet_self]
  · rw [if_neg hc, if_neg hc, h]

/-- Processing one query leaves every other query's entry unchanged. -/
theorem applyQuery_ne (cs : Int) (line : String) (m : ResultSet) (qp q : String)
    (h : q ≠ qp) : applyQuery cs line m qp q = m q := by
  unfold applyQuery
  by_cases hc : containsStr line qp
  · rw [if_pos hc]
    cases hm : m qp with
    | none => rfl
    | some res => exact mapSet_ne _ _ _ _ h
  · rw [if_neg hc]

/-- Effect of one line's query loop on a single query's entry: `stepLine`
is applied once per occurrence of the query in the query list. -/
theorem processLine_lookup (cs : Int) (line : String) :
    ∀ (queries : List String) (m : ResultSet) (q : String) (res : SearchResult),
      m q = some res →
      processLine cs queries m line q =
        some ((fun r => stepLine cs q r line)^[queries.count q] res) := by
  intro queries
  induction queries with
  | nil => intro m q res h; simpa [processLine]
  | cons qp qs ih =>
    intro m q res h
    simp only [processLine, List.foldl_cons]
    by_cases hq : qp = q
    · subst hq
      have h2 := applyQuery_self cs line m qp res h
      have h3 := ih (applyQuery cs line m qp) qp (stepLine cs qp res line) h2
      simp only [processLine] at h3
      rw [h3, List.count_cons_self, Function.iterate_succ_apply]
    · have h2 : applyQuery cs line m qp q = m q := applyQuery_ne cs line m qp q (fun he => hq he.symm)
      have h3 := ih (applyQuery cs line m qp) q res (h2.trans h)
      simp only [processLine] at h3
      rw [h3, List.count_cons_of_ne (fun he => hq he.symm)]

/-- The initialisation fold gives every listed query a zeroed entry. -/
theorem initResults_lookup_aux :
    ∀ (queries : List String) (m : ResultSet) (q : String),
      (m q = some { Query := q, Count := 0, Snippets := [] } ∨ q ∈ queries) →
      (queries.foldl (fun m qp => mapSet m qp { Query := qp, Count := 0, Snippets := [] }) m) q
        = some { Query := q, Count := 0, Snippets := [] } := by
  intro queries
  induction queries with
  | nil =>
    intro m q h
    rcases h with h | h
    · simpa using h
    · cases h
  | cons qp qs ih =>
    intro m q h
    simp only [List.foldl_cons]
    apply ih
    by_cases hq : q = qp
    · subst hq
      left; exact mapSet_self m q _
    · rcases h with h | h
      · left; rw [mapSet_ne _ _ _ _ hq]; exact h
      · rcases List.mem_cons.mp h with heq | hmem
        · exact absurd heq hq
        · right; exact hmem

/-- Every configured query starts with a zeroed entry. -/
theorem initResults_lookup (queries : List String) (q : String) (h : q ∈ queries) :
    initResults queries q = some { Query := q, Count := 0, Snippets := [] } :=
  initResults_lookup_aux queries (fun _ => none) q (Or.inr h)

/-- Effect of the whole line fold on a single query's entry. -/
theorem foldLines_lookup (cs : Int) (queries : List String) (q : String) :
    ∀ (lines : List String) (m : ResultSet) (res : SearchResult), m q = some res →
      (lines.foldl (fun m line => processLine cs queries m line) m) q =
        some (lines.foldl
          (fun r line => (fun r' => stepLine cs q r' line)^[queries.count q] r) res) := by
  intro lines
  induction lines with
  | nil => intro m res h; simpa
  | cons l ls ih =>
    intro m res h
    simp only [List.foldl_cons]
    exact ih (processLine cs queries m l)
      ((fun r' => stepLine cs q r' l)^[queries.count q] res)
      (processLine_lookup cs l queries m q res h)

/-- The entry `SearchStream` produces for a listed query, as a pure fold
of `stepLine` over the scanned lines. -/
theorem searchStream_lookup (input : String) (queries : List String) (cs : Int)
    (q : String) (hq : q ∈ queries) :
    SearchStream input queries cs q =
      some ((splitLines input).foldl
        (fun r line => (fun r' => stepLine cs q r' line)^[queries.count q] r)
        { Query := q, Count := 0, Snippets := [] }) := by
  unfold SearchStream
  exact foldLines_lookup cs queries q (splitLines input) (initResults queries)
    { Query := q, Count := 0, Snippets := [] } (initResults_lookup queries q hq)

/-- Unfolding `stepLine` on a record literal. -/
theorem stepLine_eval (cs : Int) (q : String) (c : Nat) (ss : List String) (line : String) :
    stepLine cs q { Query := q, Count := c, Snippets := ss } line =
      if containsStr line q then
        if ss.length < MaxSnippets then
          { Query := q, Count := c + 1, Snippets := ss ++ [extractSnippet line.data q cs] }
        else { Query := q, Count := c + 1, Snippets := ss }
      else { Query := q, Count := c, Snippets := ss } := by
  unfold stepLine
  rfl

/-- Folding `stepLine` over a list of lines counts the containing lines
and collects their snippets in order, truncated to `MaxSnippets`. -/
theorem stepLine_foldl (cs : Int) (q : String) :
    ∀ (lines : List String) (c : Nat) (ss : List String), ss.length ≤ MaxSnippets →
      lines.foldl (fun r line => stepLine cs q r line) { Query := q, Count := c, Snippets := ss } =
        { Query := q,
          Count := c + (lines.filter (fun l => containsStr l q)).length,
          Snippets := (ss ++ (lines.filter (fun l => containsStr l q)).map
            (fun l => extractSnippet l.data q cs)).take MaxSnippets } := by
  intro lines
  induction lines with
  | nil =>
    intro c ss h
    simp [List.take_of_length_le h]
  | cons l ls ih =>
    intro c ss h
    simp only [List.foldl_cons, stepLine_eval, List.filter_cons]
    by_cases hc : containsStr l q
    · rw [if_pos hc, if_pos hc]
      by_cases hlen : ss.length < MaxSnippets
      · rw [if_pos hlen]
        rw [ih (c + 1) (ss ++ [extractSnippet l.data q cs]) (by simp; omega)]
        simp only [List.length_cons, List.map_cons, List.append_assoc, List.singleton_append,
          SearchResult.mk.injEq]
        exact ⟨trivial, by omega, trivial⟩
      · rw [if_neg hlen]
        have hss : ss.length = MaxSnippets := by omega
        rw [ih (c + 1) ss h]
        simp only [List.length_cons, List.map_cons, SearchResult.mk.injEq]
        refine ⟨trivial, by omega, ?_⟩
        rw [List.take_append_eq_append_take, List.take_append_eq_append_take,
          List.take_of_length_le (le_of_eq hss), hss]
        simp
    · rw [if_neg hc, if_neg hc]
      exact ih c ss h

/-- A single `stepLine` adds one to the count exactly when the line
contains the query. -/
theorem stepLine_count (cs : Int) (q : String) (r : SearchResult) (l : String) :
    (stepLine cs q r l).Count = r.Count + (if containsStr l q then 1 else 0) := by
  unfold stepLine
  by_cases hc : containsStr l q
  · rw [if_pos hc, if_pos hc]
    by_cases hlen : r.Snippets.length < MaxSnippets
    · simp [hlen]
    · simp [hlen]
  · simp [hc]

/-- Iterating `stepLine` `k` times on one line adds `k` to the count when
the line contains the query, and nothing otherwise. -/
theorem stepLine_iterate_count (cs : Int) (q : String) (l : String) :
    ∀ (k : Nat) (r : SearchResult),
      ((fun r' => stepLine cs q r' l)^[k] r).Count =
        r.Count + (if containsStr l q then k else 0) := by
  intro k
  induction k with
  | zero => intro r; simp
  | succ k ih =>
    intro r
    rw [Function.iterate_succ_apply, ih, stepLine_count]
    by_cases hc : containsStr l q
    · simp [hc]; omega
    · simp [hc]

/-- Folding the `k`-fold iterated step over the lines multiplies the
number of containing lines by `k`. -/
theorem stepLine_iterate_foldl_count (cs : Int) (q : String) (k : Nat) :
    ∀ (lines : List String) (r : SearchResult),
      (lines.foldl (fun r line => (fun r' => stepLine cs q r' line)^[k] r) r).Count =
        r.Count + k * (lines.filter (fun l => containsStr l q)).length := by
  intro lines
  induction lines with
  | nil => intro r; simp
  | cons l ls ih =>
    intro r
    simp only [List.foldl_cons, List.filter_cons]
    rw [ih, stepLine_iterate_count]
    by_cases hc : containsStr l q
    · simp only [if_pos hc, List.length_cons]
      ring
    · simp only [if_neg hc]
      omega

/-- Evaluation of `extractSnippet` once the scan position is known. -/
theorem extractSnippet_eq_window (line : List Char) (q : String) (cs : Int) (idx : Nat)
    (h : findFirst line q.data = some idx) :
    extractSnippet line q cs =
      String.mk ((line.take (min ((line.length : Int))
          ((idx : Int) + q.data.length + cs)).toNat).drop
        (max 0 ((idx : Int) - cs)).toNat) := by
  simp only [extractSnippet, h]

/-- C1: for every line (character sequence), query and context width
`N ≥ 0` such that the query occurs in the line, the extractor locates the
leftmost character-by-character occurrence `idx` and returns exactly the
substring from `max(0, idx - N)` (written with truncated subtraction) to
`min(lineLength, idx + queryLength + N)`; consequently the snippet length
is at most `queryLength + 2N`, and `N = 0` yields exactly the matched
substring, i.e. the query itself. -/
theorem c1_snippet_window (line : List Char) (q : String) (N : Int) (hN : 0 ≤ N)
    (hocc : q.data <:+: line) :
    ∃ idx, findFirst line q.data = some idx ∧
      (line.drop idx).take q.length = q.data ∧
      (∀ j, j < idx → (line.drop j).take q.length ≠ q.data) ∧
      (extractSnippet line q N).data =
        (line.take (min line.length (idx + q.length + N.toNat))).drop (idx - N.toNat) ∧
      (extractSnippet line q N).length ≤ q.length + 2 * N.toNat ∧
      extractSnippet line q 0 = q := by
  have hsome := findFirst_isSome_of_infix line q.data hocc
  obtain ⟨idx, hidx⟩ := Option.isSome_iff_exists.mp hsome
  obtain ⟨hbound, hseg, hleft⟩ := findFirst_some line q.data idx hidx
  have hql : q.length = q.data.length := rfl
  refine ⟨idx, hidx, ?_, ?_, ?_, ?_, ?_⟩
  · rw [hql]; exact hseg
  · intro j hj; rw [hql]; exact hleft j hj
  · rw [extractSnippet_eq_window line q N idx hidx]
    have hS : (max 0 ((idx : Int) - N)).toNat = idx - N.toNat := by omega
    have hE : (min ((line.length : Int)) ((idx : Int) + q.data.length + N)).toNat
        = min line.length (idx + q.data.length + N.toNat) := by omega
    show (line.take _).drop _ = _
    rw [hS, hE, hql]
  · rw [extractSnippet_eq_window line q N idx hidx]
    show ((line.take _).drop _).length ≤ _
    rw [List.length_drop, List.length_take, hql]
    omega
  · rw [extractSnippet_eq_window line q 0 idx hidx]
    have hS0 : (max 0 ((idx : Int) - 0)).toNat = idx := by omega
    have hE0 : (min ((line.length : Int)) ((idx : Int) + q.data.length + 0)).toNat
        = idx + q.data.length := by omega
    rw [hS0, hE0, List.drop_take]
    have hsub : idx + q.data.length - idx = q.data.length := by omega
    rw [hsub, hseg]

/-- Concrete instantiation of the C1 theorem at line `"xabyab"`, query
`"ab"`, context width `1`: the leftmost occurrence is at index `1` and
the snippet windows evaluate as stated. -/
theorem c1_witness :
    ∃ idx, findFirst ("xabyab" : String).data ("ab" : String).data = some idx ∧
      (("xabyab" : String).data.drop idx).take ("ab" : String).length =
        ("ab" : String).data ∧
      (∀ j, j < idx → (("xabyab" : String).data.drop j).take ("ab" : String).length ≠
        ("ab" : String).data) ∧
      (extractSnippet ("xabyab" : String).data "ab" 1).data =
        (("xabyab" : String).data.take (min ("xabyab" : String).data.length
          (idx + ("ab" : String).length + (1 : Int).toNat))).drop (idx - (1 : Int).toNat) ∧
      (extractSnippet ("xabyab" : String).data "ab" 1).length ≤
        ("ab" : String).length + 2 * (1 : Int).toNat ∧
      extractSnippet ("xabyab" : String).data "ab" 0 = "ab" :=
  c1_snippet_window ("xabyab" : String).data "ab" 1 (by decide) (by decide)

/-- C9: whenever the stream searcher's containment pre-check succeeds for
a query on a line, the character-by-character search of the snippet
extractor also finds an occurrence (so the no-occurrence branch is
unreachable under that precondition); and when no occurrence is found the
extractor returns the empty string. -/
theorem c9_precheck_consistency (lineText : String) (q : String) (cs : Int) :
    (containsStr lineText q = true → (findFirst lineText.data q.data).isSome = true) ∧
    (findFirst lineText.data q.data = none → extractSnippet lineText.data q cs = "") := by
  constructor
  · intro h
    unfold containsStr at h
    exact findFirst_isSome_of_infix _ _ (of_decide_eq_true h)
  · intro h
    simp only [extractSnippet, h]

/-- Concrete instantiation of the C9 theorem: the pre-check on
`"xabcx"`/`"abc"` implies the scan succeeds, and on `"xyz"`/`"q"` the
extractor returns the empty string. -/
theorem c9_witness :
    (findFirst ("xabcx" : String).data ("abc" : String).data).isSome = true ∧
    extractSnippet ("xyz" : String).data "q" 3 = "" :=
  ⟨(c9_precheck_consistency "xabcx" "abc" 3).1 (by decide),
   (c9_precheck_consistency "xyz" "q" 3).2 (by decide)⟩

/-- C2: for any scan state in which query `q` (listed once, as the query
lists of the spec are distinct) is bound to `res`, processing one line
leaves `q`'s entry — count and snippet list — unchanged when the line
does not contain `q`, and increments `q`'s count by exactly one (however
many times `q` occurs inside the line) when it does. -/
theorem c2_per_line_update (queries : List String) (cs : Int) (m : ResultSet)
    (line q : String) (res : SearchResult)
    (hq : q ∈ queries) (hnd : queries.Nodup) (hm : m q = some res) :
    (containsStr line q = false → processLine cs queries m line q = some res) ∧
    (containsStr line q = true →
      ∃ snips, processLine cs queries m line q =
        some { Query := res.Query, Count := res.Count + 1, Snippets := snips }) := by
  have hcount : queries.count q = 1 := List.count_eq_one_of_mem hnd hq
  have hstep := processLine_lookup cs line queries m q res hm
  rw [hcount, Function.iterate_one] at hstep
  constructor
  · intro hc
    rw [hstep]
    unfold stepLine
    rw [if_neg (by simp [hc])]
  · intro hc
    rw [hstep]
    unfold stepLine
    rw [if_pos hc]
    by_cases hlen : res.Snippets.length < MaxSnippets
    · exact ⟨res.Snippets ++ [extractSnippet line.data q cs], by simp [hlen]⟩
    · exact ⟨res.Snippets, by simp [hlen]⟩

/-- Concrete instantiation of the C2 theorem on the initial state with
queries `["a", "b"]`: the line `"zz"` leaves `"a"`'s entry untouched and
the line `"xaxa"` (two occurrences) increments its count by exactly 1. -/
theorem c2_witness :
    processLine 0 ["a", "b"] (initResults ["a", "b"]) "zz" "a" =
      some { Query := "a", Count := 0, Snippets := [] } ∧
    ∃ snips, processLine 0 ["a", "b"] (initResults ["a", "b"]) "xaxa" "a" =
      some { Query := "a", Count := 0 + 1, Snippets := snips } :=
  ⟨(c2_per_line_update ["a", "b"] 0 (initResults ["a", "b"]) "zz" "a"
      { Query := "a", Count := 0, Snippets := [] } (by decide) (by decide) (by decide)).1
      (by decide),
   (c2_per_line_update ["a", "b"] 0 (initResults ["a", "b"]) "xaxa" "a"
      { Query := "a", Count := 0, Snippets := [] } (by decide) (by decide) (by decide)).2
      (by decide)⟩

/-- C5: for every input stream and listed query (query lists being
distinct per the searcher's contract), the snippet list of the returned
result is exactly the snippets of the matching lines, in stream order,
truncated to the first `MaxSnippets = 10`; in particular it never exceeds
10 entries, and a snippet is appended for a matching line exactly when
fewer than 10 have been recorded. -/
theorem c5_snippets_capped (input : String) (queries : List String) (cs : Int) (q : String)
    (hq : q ∈ queries) (hnd : queries.Nodup) :
    ∃ res, SearchStream input queries cs q = some res ∧
      res.Snippets = ((matchingLines input q).map
        (fun l => extractSnippet l.data q cs)).take MaxSnippets ∧
      res.Snippets.length ≤ MaxSnippets := by
  have hcount : queries.count q = 1 := List.count_eq_one_of_mem hnd hq
  have h := searchStream_lookup input queries cs q hq
  rw [hcount] at h
  simp only [Function.iterate_one] at h
  rw [stepLine_foldl cs q (splitLines input) 0 [] (by simp)] at h
  refine ⟨_, h, ?_, ?_⟩
  · simp [matchingLines]
  · exact List.length_take_le _ _

/-- Concrete instantiation of the C5 theorem on a three-line input with
two matching lines. -/
theorem c5_witness :
    ∃ res, SearchStream "a\nb\na" ["a"] 1 "a" = some res ∧
      res.Snippets = ((matchingLines "a\nb\na" "a").map
        (fun l => extractSnippet l.data "a" 1)).take MaxSnippets ∧
      res.Snippets.length ≤ MaxSnippets :=
  c5_snippets_capped "a\nb\na" ["a"] 1 "a" (by decide) (by decide)

/-- C10: when the query list contains the same string `k > 1` times
(possibly interleaved with other tokens), the result set holds a single
shared entry for that string; its count increases by `k`, not 1, for each
line containing it (so the final count is `k` times the number of
containing lines); and the formatter's output is the concatenation, in
query order, of one block per query-list entry in which every occurrence
of the repeated string contributes that same shared block — hence the
block is printed `k` times. -/
theorem c10_duplicate_queries (input : String) (queries : List String) (cs : Int)
    (q : String) (k : Nat) (hk : 1 < k) (hcount : queries.count q = k) :
    ∃ res, SearchStream input queries cs q = some res ∧
      res.Count = k * (matchingLines input q).length ∧
      (∀ (m : ResultSet) (r : SearchResult) (line : String), m q = some r →
        containsStr line q = true →
        ∃ r2, processLine cs queries m line q = some r2 ∧ r2.Count = r.Count + k) ∧
      (∃ B : String → String,
        WriteResults (SearchStream input queries cs) queries =
          String.join (queries.map B) ∧ B q = formatBlock res) := by
  have hmem : q ∈ queries := by
    have : 0 < queries.count q := by omega
    exact List.count_pos_iff.mp this
  have h := searchStream_lookup input queries cs q hmem
  rw [hcount] at h
  refine ⟨_, h, ?_, ?_, ?_⟩
  · rw [stepLine_iterate_foldl_count]
    simp [matchingLines]
  · intro m r line hm hc
    have hp := processLine_lookup cs line queries m q r hm
    rw [hcount] at hp
    refine ⟨_, hp, ?_⟩
    rw [stepLine_iterate_count]
    simp [hc]
  · refine ⟨fun qq =>
      match SearchStream input queries cs qq with
      | none => ""
      | some r => formatBlock r, rfl, ?_⟩
    simp only [h]

/-- Concrete instantiation of the C10 theorem: query `"x"` occurring
twice in the mixed query list `["x", "y", "x"]` over a two-line input
with two containing lines. -/
theorem c10_witness :
    ∃ res, SearchStream "x\ny x" ["x", "y", "x"] 2 "x" = some res ∧
      res.Count = 2 * (matchingLines "x\ny x" "x").length ∧
      (∀ (m : ResultSet) (r : SearchResult) (line : String), m "x" = some r →
        containsStr line "x" = true →
        ∃ r2, processLine 2 ["x", "y", "x"] m line "x" = some r2 ∧ r2.Count = r.Count + 2) ∧
      (∃ B : String → String,
        WriteResults (SearchStream "x\ny x" ["x", "y", "x"] 2) ["x", "y", "x"] =
          String.join (["x", "y", "x"].map B) ∧ B "x" = formatBlock res) :=
  c10_duplicate_queries "x\ny x" ["x", "y", "x"] 2 "x" 2 (by decide) (by decide)

/-- C3: whenever at least one positional argument is supplied and the
executable's base filename (extension stripped) splits on underscores
into at least two segments of which at least one trailing segment is
non-empty, `ParseArgs` succeeds and returns exactly the non-empty
trailing segments, in order, as the query list. -/
theorem c3_parseArgs_success (input : String) (rest : List String) (execPath : String)
    (h2 : 2 ≤ (parseNameParts execPath).length)
    (h3 : (parseNameParts execPath).tail.filter (fun q => !(q == "")) ≠ []) :
    ParseArgs (input :: rest) execPath =
      Except.ok { InputFilePath := input,
                  Queries := (parseNameParts execPath).tail.filter (fun q => !(q == "")),
                  ContextSize := DefaultContextSize } := by
  simp only [ParseArgs]
  rw [if_neg (by omega)]
  rw [if_neg (by simpa [List.length_eq_zero] using h3)]

/-- Concrete instantiation of the C3 theorem at the repository's own test
vector `/bin/grep_error_warn`. -/
theorem c3_witness :
    ParseArgs ["file.txt"] "/bin/grep_error_warn" =
      Except.ok { InputFilePath := "file.txt", Queries := ["error", "warn"],
                  ContextSize := DefaultContextSize } :=
  (c3_parseArgs_success "file.txt" [] "/bin/grep_error_warn" (by decide) (by decide)).trans
    (by rfl)

/-- C4: `ParseArgs` fails exactly when no positional argument is given,
or the name (extension stripped) has fewer than two underscore-separated
segments, or all trailing segments are empty. -/
theorem c4_parseArgs_failure (args : List String) (execPath : String) :
    (∃ e, ParseArgs args execPath = Except.error e) ↔
      (args = [] ∨ (parseNameParts execPath).length < 2 ∨
        (parseNameParts execPath).tail.filter (fun q => !(q == "")) = []) := by
  cases args with
  | nil =>
    exact ⟨fun _ => Or.inl rfl, fun _ => ⟨ParseError.missingInput, rfl⟩⟩
  | cons a as =>
    simp only [ParseArgs]
    by_cases h2 : (parseNameParts execPath).length < 2
    · rw [if_pos h2]
      exact ⟨fun _ => Or.inr (Or.inl h2), fun _ => ⟨ParseError.invalidNameFormat, rfl⟩⟩
    · rw [if_neg h2]
      by_cases h3 : ((parseNameParts execPath).tail.filter (fun q => !(q == ""))).length = 0
      · rw [if_pos h3]
        exact ⟨fun _ => Or.inr (Or.inr (List.length_eq_zero.mp h3)),
          fun _ => ⟨ParseError.noQueries, rfl⟩⟩
      · rw [if_neg h3]
        constructor
        · rintro ⟨e, he⟩
          cases he
        · rintro (h | h | h)
          · cases h
          · exact absurd h h2
          · exact absurd (by simp [h]) h3

/-- Concrete instantiation of the C4 theorem: a name without underscores
makes `ParseArgs` fail even with an input argument. -/
theorem c4_witness : ∃ e, ParseArgs ["file.txt"] "grep" = Except.error e :=
  (c4_parseArgs_failure ["file.txt"] "grep").mpr (Or.inr (Or.inl (by decide)))

/-- The input string of the C6 scenario (20 digits, `TARGET`, 20
digits — 46 characters in total). -/
def c6Input : String := "12345678901234567890TARGET12345678901234567890"

/-- Counterexample to C6 as stated: the scenario's input string does not
have 48 characters, so the conjunction of the claim (snippet equals "the
entire 48-character input string") is false; its length is 46. -/
theorem c6_counterexample :
    ¬ (c6Input.length = 48 ∧
        SearchStream c6Input ["TARGET"] 20 "TARGET" =
          some { Query := "TARGET", Count := 1, Snippets := [c6Input] }) := by
  intro h
  exact absurd h.1 (by decide)

/-- C6 (amended): scanning the 46-character input for `"TARGET"` with
context width 20 yields a snippet equal to the entire input string, and
with context width 5 yields `"67890TARGET12345"`. -/
theorem c6_amended_scenario :
    c6Input.length = 46 ∧
    SearchStream c6Input ["TARGET"] 20 "TARGET" =
      some { Query := "TARGET", Count := 1, Snippets := [c6Input] } ∧
    SearchStream c6Input ["TARGET"] 5 "TARGET" =
      some { Query := "TARGET", Count := 1, Snippets := ["67890TARGET12345"] } :=
  ⟨by decide, by decide, by decide⟩

/-- C7: a trailing partial line without a terminating newline is scanned
like any other line: on the two-line input the count is 1 and the single
snippet is the full second line, the context exceeding both sides. -/
theorem c7_trailing_partial_line :
    SearchStream "no match here\nprefix MATCH suffix" ["MATCH"] 10 "MATCH" =
      some { Query := "MATCH", Count := 1, Snippets := ["prefix MATCH suffix"] } := by
  decide

/-- C8: every run either succeeds with exit code 0 or fails with exit
code 1, exactly one message on the error sink, and nothing written to the
primary output sink (no partial output on any error — configuration,
flag-parse, negative `-n`, file-open, file-create or stream-read); and
whenever the flags parse to a negative context size the run fails with
exit code 1 and no output. -/
theorem c8_error_handling (ctx : AppContext) (fv : FlagValues) (rest : List String) :
    ((Run ctx).exitCode = 0 ∨
      ((Run ctx).exitCode = 1 ∧ (Run ctx).stdoutData = "" ∧ (Run ctx).errLog.length = 1)) ∧
    (parseFlags defaultFlagValues (ctx.Args.drop 1) = Except.ok (fv, rest) →
      fv.contextSize < 0 →
      (Run ctx).exitCode = 1 ∧ (Run ctx).stdoutData = "") := by
  constructor
  · unfold Run
    dsimp only
    generalize parseFlags defaultFlagValues (ctx.Args.drop 1) = pf
    rcases pf with e | ⟨fvp, rem⟩
    · right; exact ⟨rfl, rfl, rfl⟩
    · dsimp only
      by_cases hneg : fvp.contextSize < 0
      · rw [if_pos hneg]
        right; exact ⟨rfl, rfl, rfl⟩
      · rw [if_neg hneg]
        generalize ParseArgs rem ctx.ExecPath = pa
        rcases pa with e2 | cfg
        · right; exact ⟨rfl, rfl, rfl⟩
        · dsimp only
          by_cases ho : fvp.outputFile ≠ "" ∧ ctx.createOk = false
          · rw [if_pos ho]
            right; exact ⟨rfl, rfl, rfl⟩
          · rw [if_neg ho]
            generalize ctx.reader = rd
            rcases rd with _ | _ | content
            · right; exact ⟨rfl, rfl, rfl⟩
            · right; exact ⟨rfl, rfl, rfl⟩
            · left; rfl
  · intro hp hneg
    unfold Run
    dsimp only
    rw [hp]
    dsimp only
    rw [if_pos hneg]
    exact ⟨rfl, rfl⟩

/-- Concrete instantiation of the C8 theorem: `-n -1` yields exit code 1
and an empty primary output. -/
theorem c8_witness :
    (Run { Args := ["app", "-n", "-1", "in.txt"], ExecPath := "app_q", createOk := true,
           reader := ReadOutcome.ok "hello" }).exitCode = 1 ∧
    (Run { Args := ["app", "-n", "-1", "in.txt"], ExecPath := "app_q", createOk := true,
           reader := ReadOutcome.ok "hello" }).stdoutData = "" :=
  (c8_error_handling
      { Args := ["app", "-n", "-1", "in.txt"], ExecPath := "app_q", createOk := true,
        reader := ReadOutcome.ok "hello" }
      { outputFile := "", contextSize := -1 } ["in.txt"]).2 (by rfl) (by decide)
